import Mathlib

/-!
Shallow embedding of `src/app.py` (madira-app), a multi-tenant
point-of-sale Flask application, together with proofs about its billing,
inventory and licensing behaviour.

Persistence is modelled as an explicit `DB` value; each request handler
becomes a function from the current state and the request data to a new
state plus a response.  SQLAlchemy's session discipline is modelled
transactionally: a handler returns either the committed new state or the
unchanged original state (`db.session.rollback()` discards all staged
changes, and nothing is durable before `db.session.commit()`).

Python floats (`price`, `total_amount`) are modelled as exact rationals;
Python's `round(x, 2)` becomes `round2`, round-half-to-even at two
decimal places.  `datetime.date` becomes `Date`, and
`datetime.datetime.strptime(s, '%Y-%m-%d')` becomes `parseDate`, a
model of CPython's `_strptime` regular expression for that format
followed by the `datetime` constructor's calendar check.  The `\d` of
those patterns (and `int()` on the matched groups) accept every Unicode
decimal digit, so the digit set is embedded as the category-`Nd` ranges
of the Unicode database CPython links against; the literal character
classes of the patterns (`1[0-2]`, `3[01]`, `0[1-9]`, `[1-9]`, `[12]`)
remain ASCII-only, exactly as written.
-/

namespace Madira

/-- Calendar date, the result of `datetime.date(year, month, day)`. -/
structure Date where
  year : Nat
  month : Nat
  day : Nat
deriving DecidableEq, Repr

/-- Proleptic-Gregorian leap-year rule used by `datetime`. -/
def isLeap (y : Nat) : Bool :=
  y % 4 == 0 && (y % 100 != 0 || y % 400 == 0)

/-- Number of days in month `m` of year `y` (as `datetime` validates it). -/
def daysInMonth (y m : Nat) : Nat :=
  if m == 2 then (if isLeap y then 29 else 28)
  else if m == 4 || m == 6 || m == 9 || m == 11 then 30
  else 31

/-- First code points of the runs of ten consecutive Unicode decimal
digits (category `Nd`; every such run carries the values 0–9 in order)
in the Unicode database CPython links against.  `\d` in `_strptime`'s
compiled patterns and `int()` on the matched groups accept exactly these
characters. -/
def ndRangeStarts : List Nat :=
  [48, 1632, 1776, 1984, 2406, 2534, 2662, 2790, 2918, 3046, 3174, 3302,
   3430, 3558, 3664, 3792, 3872, 4160, 4240, 6112, 6160, 6470, 6608, 6784,
   6800, 6992, 7088, 7232, 7248, 42528, 43216, 43264, 43472, 43504, 43600,
   44016, 65296, 66720, 68912, 69734, 69872, 69942, 70096, 70384, 70736,
   70864, 71248, 71360, 71472, 71904, 72016, 72784, 73040, 73120, 92768,
   92864, 93008, 120782, 120792, 120802, 120812, 120822, 123200, 123632,
   125264, 130032]

/-- A Unicode decimal digit: the `\d` of `_strptime`'s patterns. -/
def isNdDigit (c : Char) : Bool :=
  ndRangeStarts.any (fun s => s ≤ c.toNat && c.toNat ≤ s + 9)

/-- Decimal value of a Unicode digit (its offset in the `Nd` run; 0 for
non-digits, which only matched digits ever reach). -/
def digitVal (c : Char) : Nat :=
  match ndRangeStarts.find? (fun s => s ≤ c.toNat && c.toNat ≤ s + 9) with
  | some s => c.toNat - s
  | none => 0

/-- An ASCII digit, for the pattern parts written as literal character
classes (those match only ASCII). -/
def isAsciiDigit (c : Char) : Bool :=
  '0' ≤ c && c ≤ '9'

/-- Numeric value of a digit string (what `int()` does to a matched
group; it sums Unicode decimal-digit values positionally). -/
def digitsVal (cs : List Char) : Nat :=
  cs.foldl (fun n c => 10 * n + digitVal c) 0

/-- The `%Y` pattern of `_strptime`: exactly four digits
(`\d\d\d\d`, each any Unicode decimal digit). -/
def matchesY (cs : List Char) : Bool :=
  cs.length == 4 && cs.all isNdDigit

/-- The `%m` pattern of `_strptime` (`1[0-2]|0[1-9]|[1-9]`), matched
against a whole `-`-separated component.  All its character classes are
ASCII literals, so: one or two ASCII digits, value 1–12 (the two-digit
forms `01`–`12`, never `00`). -/
def matchesM (cs : List Char) : Bool :=
  cs.all isAsciiDigit && (cs.length == 1 || cs.length == 2)
    && 1 ≤ digitsVal cs && digitsVal cs ≤ 12

/-- The `%d` pattern of `_strptime` (`3[01]|[12]\d|0[1-9]|[1-9]`),
matched against a whole component.  Only the `\d` of the `[12]\d`
alternative accepts non-ASCII digits; every other class is an ASCII
literal.  The matched values are 1–9, 01–09, 10–29 (second digit any
script), 30 and 31. -/
def matchesD (cs : List Char) : Bool :=
  match cs with
  | [c] => '1' ≤ c && c ≤ '9'
  | [c1, c2] =>
      (c1 == '3' && (c2 == '0' || c2 == '1'))
      || ((c1 == '1' || c1 == '2') && isNdDigit c2)
      || (c1 == '0' && '1' ≤ c2 && c2 ≤ '9')
  | _ => false

/-- Model of `datetime.datetime.strptime(s, '%Y-%m-%d').date()`:
`some` on success, `none` when `ValueError` is raised (pattern mismatch,
unconverted trailing data, or an invalid calendar date — `datetime`
additionally requires `1 ≤ year` and `day ≤ daysInMonth`).  Because every
component of the pattern matches decimal digits only, and no decimal
digit is the separator `-`, the regex matches exactly when splitting on
`-` yields three components matching `%Y`, `%m`, `%d` in full. -/
def parseDate (s : String) : Option Date :=
  match s.toList.splitOn '-' with
  | [yc, mc, dc] =>
    if matchesY yc && matchesM mc && matchesD dc then
      let y := digitsVal yc
      let m := digitsVal mc
      let d := digitsVal dc
      if 1 ≤ y && d ≤ daysInMonth y m then some ⟨y, m, d⟩ else none
    else none
  | _ => none

/-- Floor of a rational (numerator floor-divided by denominator). -/
def ratFloor (q : ℚ) : ℤ :=
  q.num.fdiv q.den

/-- Round a rational half-to-even to an integer, as Python's `round`
does on an exactly-representable value. -/
def roundHalfEven (q : ℚ) : ℤ :=
  if q - ratFloor q < 1/2 then ratFloor q
  else if 1/2 < q - ratFloor q then ratFloor q + 1
  else if ratFloor q % 2 = 0 then ratFloor q else ratFloor q + 1

/-- Python's `round(x, 2)`. -/
def round2 (q : ℚ) : ℚ :=
  (roundHalfEven (q * 100) : ℚ) / 100

/-- Row of table `store` (the `users`/`products`/`sales` relationships
are query shorthand, not columns). -/
structure StoreRow where
  id : Nat
  name : String
  location : String
  license_validity : Date
deriving DecidableEq, Repr

/-- Row of table `user`.  `password_hash` is omitted (authentication is
out of scope); `store_id` is nullable, `None` for superadmins. -/
structure User where
  id : Nat
  username : String
  role : String
  store_id : Option Nat
deriving DecidableEq, Repr

/-- Row of table `product`.  `store_id` is modelled as `Option Nat`
because the handlers write `current_user.store_id`, which is nullable;
the schema's NOT NULL would reject `none` at commit time. -/
structure Product where
  id : Nat
  barcode : Option String
  name : String
  brand : String
  category : String
  size_ml : Int
  price : ℚ
  stock_quantity : Int
  store_id : Option Nat
deriving DecidableEq, Repr

/-- Row of table `sale`.  `sale_date` is the `utcnow` timestamp,
modelled as an abstract tick. -/
structure Sale where
  id : Nat
  total_amount : ℚ
  sale_date : Nat
  store_id : Option Nat
deriving DecidableEq, Repr

/-- Row of table `sale_item` (its own autoincrement primary key is
omitted: no route ever reads it). -/
structure SaleItem where
  sale_id : Nat
  product_id : Nat
  quantity : Int
  price_at_sale : ℚ
deriving DecidableEq, Repr

/-- The whole database, plus the autoincrement counters for the two
tables whose fresh primary keys the handlers use. -/
structure DB where
  stores : List StoreRow
  products : List Product
  sales : List Sale
  sale_items : List SaleItem
  next_product_id : Nat
  next_sale_id : Nat
deriving DecidableEq, Repr

/-- `Product.query.filter_by(id=pid, store_id=sid).first()`. -/
def findProduct (ps : List Product) (pid : Nat) (sid : Option Nat) : Option Product :=
  ps.find? (fun p => p.id == pid && p.store_id == sid)

/-- Mutating the ORM object returned by `.first()`: rewrite the first
row matching the filter, leave every other row untouched. -/
def updateFirstProduct (ps : List Product) (pid : Nat) (sid : Option Nat)
    (f : Product → Product) : List Product :=
  match ps with
  | [] => []
  | p :: rest =>
    if p.id == pid && p.store_id == sid then f p :: rest
    else p :: updateFirstProduct rest pid sid f

/-- `Store.query.get(store_id)` (primary-key lookup). -/
def findStore (ss : List StoreRow) (sid : Nat) : Option StoreRow :=
  ss.find? (fun s => s.id == sid)

/-- Mutating the store row returned by `get_or_404`. -/
def updateFirstStore (ss : List StoreRow) (sid : Nat)
    (f : StoreRow → StoreRow) : List StoreRow :=
  match ss with
  | [] => []
  | s :: rest =>
    if s.id == sid then f s :: rest
    else s :: updateFirstStore rest sid f

/-- Non-JSON route outcomes. -/
inductive PageResult where
  | forbidden
  | notFound
  | redirect
deriving DecidableEq, Repr

/-- `update_license` (POST `/superadmin/update_license/<store_id>`).
`new_validity` is `request.form.get('new_validity')`; `none` models a
missing field and the empty string is falsy, so both skip the update.
A `strptime` `ValueError` is swallowed (`except ValueError: pass`) and
the handler redirects regardless. -/
def update_license (db : DB) (u : User) (store_id : Nat)
    (new_validity : Option String) : DB × PageResult :=
  if u.role ≠ "superadmin" then (db, .forbidden)
  else
    match findStore db.stores store_id with
    | none => (db, .notFound)
    | some _ =>
      match new_validity with
      | none => (db, .redirect)
      | some s =>
        if s == "" then (db, .redirect)
        else
          match parseDate s with
          | some d =>
            let ss := updateFirstStore db.stores store_id
              (fun st => { st with license_validity := d })
            ({ db with stores := ss }, .redirect)
          | none => (db, .redirect)

/-- The POST branch of `dashboard` (the new-product form).  The form
fields arrive already converted (`int(...)`, `float(...)`); note that
`stock_quantity` is stored without any sign check. -/
def dashboard_post (db : DB) (u : User) (name brand category : String)
    (size_ml : Int) (price : ℚ) (barcode : String) (stock_quantity : Int) :
    DB × PageResult :=
  if u.role == "superadmin" then (db, .redirect)
  else if u.role ≠ "store" then (db, .forbidden)
  else
    ({ db with
        products := db.products ++
          [{ id := db.next_product_id, barcode := some barcode, name := name,
             brand := brand, category := category, size_ml := size_ml,
             price := price, stock_quantity := stock_quantity,
             store_id := u.store_id }],
        next_product_id := db.next_product_id + 1 }, .redirect)

/-- `update_stock` (POST `/update_stock`); `add_stock` is the parsed
integer.  Only a strictly positive quantity is added and committed;
anything else falls through to the redirect with no change. -/
def update_stock (db : DB) (u : User) (product_id : Nat) (add_stock : Int) :
    DB × PageResult :=
  if u.role ≠ "store" then (db, .forbidden)
  else
    match findProduct db.products product_id u.store_id with
    | none => (db, .notFound)
    | some _ =>
      if add_stock > 0 then
        let ps := updateFirstProduct db.products product_id u.store_id
          (fun p => { p with stock_quantity := p.stock_quantity + add_stock })
        ({ db with products := ps }, .redirect)
      else (db, .redirect)

/-- `/api/products`: `none` models `abort(403)`; the rows are returned
filtered by the caller's store and positive stock (their `to_dict`
serialization drops no row). -/
def get_products (db : DB) (u : User) : Option (List Product) :=
  if u.role ∈ ["store", "admin"] then
    some (db.products.filter
      (fun p => p.store_id == u.store_id && p.stock_quantity > 0))
  else none

/-- `/sales`: an `admin` lists the own store's sales.  The
`order_by(sale_date.desc())` only reorders rows and is not modelled. -/
def sales (db : DB) (u : User) : Option (List Sale) :=
  if u.role ≠ "admin" then none
  else some (db.sales.filter (fun s => s.store_id == u.store_id))

/-- One line of the parsed `items` array of a bill request. -/
structure BillItem where
  id : Nat
  quantity : Int
deriving DecidableEq, Repr

/-- Outcome of `/api/process_bill`: `forbidden` is `abort(403)`,
`failure msg st` is `({'success': False, 'error': msg}, st)`, and
`success sid` is `{'success': True, 'sale_id': sid}`. -/
inductive BillResult where
  | forbidden
  | failure (error : String) (status : Nat)
  | success (sale_id : Nat)
deriving DecidableEq, Repr

/-- The `for item in bill_items` loop of `process_bill`: threads the
pending product table, the running `total_amount`, and the staged
`SaleItem`s (accumulated in reverse creation order).  A `.error` is the
mid-loop `db.session.rollback()` with its 400 message. -/
def processItems (sid : Option Nat) (saleId : Nat) :
    List BillItem → List Product → ℚ → List SaleItem →
    Except String (List Product × ℚ × List SaleItem)
  | [], ps, total, acc => .ok (ps, total, acc.reverse)
  | it :: rest, ps, total, acc =>
    match findProduct ps it.id sid with
    | none => .error ("Not enough stock for ID " ++ toString it.id)
    | some product =>
      if product.stock_quantity < it.quantity then
        .error ("Not enough stock for " ++ product.name)
      else
        processItems sid saleId rest
          (updateFirstProduct ps it.id sid
            (fun p => { p with stock_quantity := p.stock_quantity - it.quantity }))
          (total + product.price * it.quantity)
          ({ sale_id := saleId, product_id := product.id, quantity := it.quantity,
             price_at_sale := product.price } :: acc)

/-- `/api/process_bill`.  `now` stands for `datetime.datetime.utcnow()`
and `bill_items` for the parsed `items` array (`data.get('items', [])`).
On `.ok` the single `db.session.commit()` installs every staged change
at once: the decremented product rows, the `Sale` (its `total_amount`
overwritten with the rounded total before the commit), and one
`SaleItem` per line. -/
def process_bill (db : DB) (u : User) (now : Nat) (bill_items : List BillItem) :
    DB × BillResult :=
  if u.role ≠ "store" then (db, .forbidden)
  else if bill_items.isEmpty then (db, .failure ("Empty bill") 400)
  else
    match processItems u.store_id db.next_sale_id bill_items db.products 0 [] with
    | .error msg => (db, .failure msg 400)
    | .ok (ps, total, sitems) =>
      ({ db with
          products := ps,
          sales := db.sales ++
            [{ id := db.next_sale_id, total_amount := round2 total,
               sale_date := now, store_id := u.store_id }],
          sale_items := db.sale_items ++ sitems,
          next_sale_id := db.next_sale_id + 1 },
       .success db.next_sale_id)

/-- Total quantity a bill requests for product id `pid` (summed over all
its lines naming that id). -/
def billQty (items : List BillItem) (pid : Nat) : Int :=
  ((items.filter (fun it => it.id == pid)).map (fun it => it.quantity)).sum

/-- Price of the product a line resolves to (0 if the line does not
resolve; only used under resolution hypotheses). -/
def priceIn (ps : List Product) (sid : Option Nat) (pid : Nat) : ℚ :=
  match findProduct ps pid sid with
  | some p => p.price
  | none => 0

/-- Σ `price_at_sale × quantity` over a bill, prices taken in `ps`. -/
def billTotal (ps : List Product) (sid : Option Nat) (items : List BillItem) : ℚ :=
  (items.map (fun it => priceIn ps sid it.id * it.quantity)).sum

/-! ### Helper lemmas about the row-level query/update primitives -/

theorem updateFirstProduct_map_id (ps : List Product) (pid : Nat) (sid : Option Nat)
    (f : Product → Product) (hid : ∀ p, (f p).id = p.id) :
    (updateFirstProduct ps pid sid f).map Product.id = ps.map Product.id := by
  induction ps with
  | nil => rfl
  | cons p rest ih =>
    by_cases hc : (p.id == pid && p.store_id == sid) = true
    · simp [updateFirstProduct, hc, hid]
    · simp only [updateFirstProduct, if_neg hc, List.map_cons, ih]

theorem findProduct_updateFirstProduct_none (ps : List Product) (pid x : Nat)
    (sid y : Option Nat) (f : Product → Product)
    (hid : ∀ p, (f p).id = p.id) (hst : ∀ p, (f p).store_id = p.store_id) :
    (findProduct (updateFirstProduct ps pid sid f) x y = none
      ↔ findProduct ps x y = none) := by
  induction ps with
  | nil => simp [updateFirstProduct]
  | cons p rest ih =>
    by_cases hc : (p.id == pid && p.store_id == sid) = true
    · by_cases hm : (p.id == x && p.store_id == y) = true
      · simp [updateFirstProduct, findProduct, List.find?, hc, hm, hid, hst]
      · simp [updateFirstProduct, findProduct, List.find?, hc, hm, hid, hst]
    · by_cases hm : (p.id == x && p.store_id == y) = true
      · simp [updateFirstProduct, findProduct, List.find?, hc, hm]
      · simp only [updateFirstProduct, if_neg hc]
        simp only [findProduct, List.find?, hm] at ih ⊢
        exact ih

theorem priceIn_updateFirstProduct (ps : List Product) (pid x : Nat)
    (sid y : Option Nat) (f : Product → Product)
    (hid : ∀ p, (f p).id = p.id) (hst : ∀ p, (f p).store_id = p.store_id)
    (hpr : ∀ p, (f p).price = p.price) :
    priceIn (updateFirstProduct ps pid sid f) y x = priceIn ps y x := by
  induction ps with
  | nil => simp [updateFirstProduct]
  | cons p rest ih =>
    by_cases hc : (p.id == pid && p.store_id == sid) = true
    · by_cases hm : (p.id == x && p.store_id == y) = true
      · simp [updateFirstProduct, priceIn, findProduct, List.find?, hc, hm, hid, hst, hpr]
      · simp [updateFirstProduct, priceIn, findProduct, List.find?, hc, hm, hid, hst]
    · by_cases hm : (p.id == x && p.store_id == y) = true
      · simp [updateFirstProduct, priceIn, findProduct, List.find?, hc, hm]
      · simp only [updateFirstProduct, if_neg hc]
        simp only [priceIn, findProduct, List.find?, hm] at ih ⊢
        exact ih

theorem findProduct_updateFirstProduct_self (ps : List Product) (pid : Nat)
    (sid : Option Nat) (f : Product → Product) (q : Product)
    (hid : ∀ p, (f p).id = p.id) (hst : ∀ p, (f p).store_id = p.store_id)
    (hq : findProduct ps pid sid = some q) :
    findProduct (updateFirstProduct ps pid sid f) pid sid = some (f q) := by
  induction ps with
  | nil => simp [findProduct] at hq
  | cons p rest ih =>
    by_cases hc : (p.id == pid && p.store_id == sid) = true
    · simp only [findProduct, List.find?, hc] at hq
      obtain rfl : p = q := by injection hq
      simp only [updateFirstProduct, if_pos hc]
      simp [findProduct, List.find?, hid, hst, hc]
    · simp only [findProduct, List.find?, hc] at hq
      simp only [updateFirstProduct, if_neg hc, findProduct, List.find?, hc]
      simp only [findProduct] at ih
      exact ih hq

theorem findProduct_updateFirstProduct_other (ps : List Product) (x y : Nat)
    (sid sid' : Option Nat) (f : Product → Product)
    (hid : ∀ p, (f p).id = p.id) (hst : ∀ p, (f p).store_id = p.store_id)
    (hxy : x ≠ y) :
    findProduct (updateFirstProduct ps y sid f) x sid' = findProduct ps x sid' := by
  induction ps with
  | nil => rfl
  | cons p rest ih =>
    by_cases hc : (p.id == y && p.store_id == sid) = true
    · have hpy : p.id = y := eq_of_beq ((Bool.and_eq_true _ _).mp hc).1
      have hmx : (p.id == x) = false := by
        rw [hpy]
        exact beq_eq_false_iff_ne.mpr (fun h => hxy h.symm)
      simp only [updateFirstProduct, if_pos hc]
      simp [findProduct, List.find?, hid, hst, hmx]
    · by_cases hm : (p.id == x && p.store_id == sid') = true
      · simp [updateFirstProduct, findProduct, List.find?, hc, hm]
      · simp only [updateFirstProduct, if_neg hc]
        simp only [findProduct, List.find?, hm] at ih ⊢
        exact ih

theorem updateFirstProduct_mem_of_find (ps : List Product) (pid : Nat)
    (sid : Option Nat) (f : Product → Product) (q : Product)
    (hq : findProduct ps pid sid = some q) :
    ∀ p ∈ updateFirstProduct ps pid sid f, p ∈ ps ∨ p = f q := by
  induction ps with
  | nil => simp [updateFirstProduct]
  | cons p rest ih =>
    by_cases hc : (p.id == pid && p.store_id == sid) = true
    · simp only [findProduct, List.find?, hc] at hq
      simp only [updateFirstProduct, if_pos hc]
      intro r hr
      rcases List.mem_cons.mp hr with h | h
      · right; rw [h, ← Option.some_inj.mp hq]
      · left; exact List.mem_cons_of_mem _ h
    · simp only [findProduct, List.find?, hc] at hq
      simp only [findProduct] at ih
      simp only [updateFirstProduct, if_neg hc]
      intro r hr
      rcases List.mem_cons.mp hr with h | h
      · left; rw [h]; exact List.mem_cons_self _ _
      · rcases ih hq r h with h' | h'
        · left; exact List.mem_cons_of_mem _ h'
        · right; exact h'

theorem updateFirstProduct_eq_map (ps : List Product) (pid : Nat) (sid : Option Nat)
    (f : Product → Product) (hnd : (ps.map Product.id).Nodup) :
    updateFirstProduct ps pid sid f
      = ps.map (fun p => if p.id == pid && p.store_id == sid then f p else p) := by
  induction ps with
  | nil => rfl
  | cons p rest ih =>
    rw [List.map_cons, List.nodup_cons] at hnd
    obtain ⟨hnotin, hnd'⟩ := hnd
    by_cases hc : (p.id == pid && p.store_id == sid) = true
    · have hpid : p.id = pid := eq_of_beq ((Bool.and_eq_true _ _).mp hc).1
      simp only [updateFirstProduct, if_pos hc, List.map_cons, if_pos hc]
      have : rest.map (fun r => if r.id == pid && r.store_id == sid then f r else r)
          = rest.map id := by
        apply List.map_congr_left
        intro r hr
        have hrid : r.id ≠ pid := by
          rw [← hpid]
          intro hcontra
          exact hnotin (hcontra ▸ List.mem_map_of_mem Product.id hr)
        simp [hrid]
      rw [this, List.map_id]
    · simp only [updateFirstProduct, if_neg hc, List.map_cons, if_neg hc, ih hnd']

/-! ### Bill-level bookkeeping lemmas -/

theorem billQty_nil (pid : Nat) : billQty [] pid = 0 := rfl

theorem billQty_cons (it : BillItem) (rest : List BillItem) (pid : Nat) :
    billQty (it :: rest) pid
      = (if it.id == pid then it.quantity else 0) + billQty rest pid := by
  by_cases h : (it.id == pid) = true
  · simp [billQty, List.filter, h]
  · simp [billQty, List.filter, h]

theorem billTotal_nil (ps : List Product) (sid : Option Nat) :
    billTotal ps sid [] = 0 := rfl

theorem billTotal_cons (ps : List Product) (sid : Option Nat) (it : BillItem)
    (rest : List BillItem) :
    billTotal ps sid (it :: rest)
      = priceIn ps sid it.id * it.quantity + billTotal ps sid rest := by
  simp [billTotal]

theorem list_sum_map_add (l : List Product) (f g : Product → Int) :
    (l.map (fun x => f x + g x)).sum = (l.map f).sum + (l.map g).sum := by
  induction l with
  | nil => simp
  | cons a l ih => simp [ih]; ring

theorem priceIn_some (ps : List Product) (sid : Option Nat) (pid : Nat) (q : Product)
    (h : findProduct ps pid sid = some q) : priceIn ps sid pid = q.price := by
  simp [priceIn, h]

theorem processItems_cons_none (sid : Option Nat) (saleId : Nat) (it : BillItem)
    (rest : List BillItem) (ps : List Product) (total : ℚ) (acc : List SaleItem)
    (hf : findProduct ps it.id sid = none) :
    processItems sid saleId (it :: rest) ps total acc
      = .error ("Not enough stock for ID " ++ toString it.id) := by
  simp [processItems, hf]

theorem processItems_cons_short (sid : Option Nat) (saleId : Nat) (it : BillItem)
    (rest : List BillItem) (ps : List Product) (total : ℚ) (acc : List SaleItem)
    (q : Product) (hf : findProduct ps it.id sid = some q)
    (hlt : q.stock_quantity < it.quantity) :
    processItems sid saleId (it :: rest) ps total acc
      = .error ("Not enough stock for " ++ q.name) := by
  simp [processItems, hf, hlt]

theorem processItems_cons_pass (sid : Option Nat) (saleId : Nat) (it : BillItem)
    (rest : List BillItem) (ps : List Product) (total : ℚ) (acc : List SaleItem)
    (q : Product) (hf : findProduct ps it.id sid = some q)
    (hlt : ¬ q.stock_quantity < it.quantity) :
    processItems sid saleId (it :: rest) ps total acc
      = processItems sid saleId rest
          (updateFirstProduct ps it.id sid
            (fun p => { p with stock_quantity := p.stock_quantity - it.quantity }))
          (total + q.price * it.quantity)
          ({ sale_id := saleId, product_id := q.id, quantity := it.quantity,
             price_at_sale := q.price } :: acc) := by
  simp [processItems, hf, hlt]

/-- What a successful run of the `process_bill` loop does, stated
against the initial product table: every line resolves, each product row
of the caller's store loses exactly the cumulative quantity its lines
request (rows of other stores are untouched), the running total grows by
Σ price·quantity at initial prices, and one staged `SaleItem` per line is
appended in order, snapshotting the initial price. -/
theorem processItems_ok_spec (sid : Option Nat) (saleId : Nat) :
    ∀ (items : List BillItem) (ps : List Product) (total : ℚ) (acc : List SaleItem)
      (ps' : List Product) (total' : ℚ) (out : List SaleItem),
      (ps.map Product.id).Nodup →
      processItems sid saleId items ps total acc = .ok (ps', total', out) →
      (∀ it ∈ items, findProduct ps it.id sid ≠ none)
      ∧ ps' = ps.map (fun p => if p.store_id == sid then
          { p with stock_quantity := p.stock_quantity - billQty items p.id } else p)
      ∧ total' = total + billTotal ps sid items
      ∧ out = acc.reverse ++ items.map (fun it =>
          { sale_id := saleId, product_id := it.id, quantity := it.quantity,
            price_at_sale := priceIn ps sid it.id }) := by
  intro items
  induction items with
  | nil =>
    intro ps total acc ps' total' out hnd h
    simp only [processItems, Except.ok.injEq, Prod.mk.injEq] at h
    obtain ⟨h1, h2, h3⟩ := h
    refine ⟨by simp, ?_, by simp [← h2, billTotal_nil], by simp [← h3]⟩
    rw [← h1]
    have : ps.map (fun p => if p.store_id == sid then
        { p with stock_quantity := p.stock_quantity - billQty [] p.id } else p)
        = ps.map id := by
      apply List.map_congr_left
      intro p _
      simp [billQty_nil]
    rw [this, List.map_id]
  | cons it rest ih =>
    intro ps total acc ps' total' out hnd h
    cases hf : findProduct ps it.id sid with
    | none =>
      rw [processItems_cons_none _ _ _ _ _ _ _ hf] at h
      exact absurd h (by simp)
    | some q =>
      by_cases hlt : q.stock_quantity < it.quantity
      · rw [processItems_cons_short _ _ _ _ _ _ _ _ hf hlt] at h
        exact absurd h (by simp)
      · rw [processItems_cons_pass _ _ _ _ _ _ _ _ hf hlt] at h
        have hqkey := List.find?_some hf
        have hqid : q.id = it.id := eq_of_beq ((Bool.and_eq_true _ _).mp hqkey).1
        have hnd₁ : ((updateFirstProduct ps it.id sid
            (fun p => { p with stock_quantity := p.stock_quantity - it.quantity })).map
              Product.id).Nodup := by
          rw [updateFirstProduct_map_id ps it.id sid
            (fun p => { p with stock_quantity := p.stock_quantity - it.quantity })
            (fun p => rfl)]
          exact hnd
        obtain ⟨hres, hps, htot, hout⟩ := ih _ _ _ _ _ _ hnd₁ h
        have hpriceInv : ∀ x, priceIn (updateFirstProduct ps it.id sid
            (fun p => { p with stock_quantity := p.stock_quantity - it.quantity })) sid x
            = priceIn ps sid x := fun x =>
          priceIn_updateFirstProduct ps it.id x sid sid
            (fun p => { p with stock_quantity := p.stock_quantity - it.quantity })
            (fun p => rfl) (fun p => rfl) (fun p => rfl)
        refine ⟨?_, ?_, ?_, ?_⟩
        · intro it' hmem
          rcases List.mem_cons.mp hmem with hh | hh
          · rw [hh, hf]; exact fun hcontra => Option.noConfusion hcontra
          · intro hcontra
            have hthis := hres it' hh
            rw [(findProduct_updateFirstProduct_none ps it.id it'.id sid sid
              (fun p => { p with stock_quantity := p.stock_quantity - it.quantity })
              (fun p => rfl) (fun p => rfl)).mpr hcontra] at hthis
            exact hthis rfl
        · rw [hps, updateFirstProduct_eq_map ps it.id sid
            (fun p => { p with stock_quantity := p.stock_quantity - it.quantity }) hnd,
            List.map_map]
          apply List.map_congr_left
          intro p _
          have hItP : (it.id == p.id) = (p.id == it.id) := by
            by_cases hx : it.id = p.id
            · rw [hx]
            · rw [beq_eq_false_iff_ne.mpr hx, beq_eq_false_iff_ne.mpr (Ne.symm hx)]
          cases hpid : (p.id == it.id) with
          | true =>
            cases hstore : (p.store_id == sid) with
            | true =>
              simp only [Function.comp_apply, hpid, hstore, Bool.and_self, if_true,
                billQty_cons, hItP]
              rw [sub_sub]
            | false =>
              simp only [Function.comp_apply, hpid, hstore, Bool.and_false, if_false]
              simp only [hstore, Bool.false_eq_true, if_false]
          | false =>
            cases hstore : (p.store_id == sid) with
            | true =>
              simp only [Function.comp_apply, hpid, Bool.false_and, Bool.false_eq_true,
                if_false]
              simp only [hstore, if_true, billQty_cons, hItP, hpid, Bool.false_eq_true,
                if_false, zero_add]
            | false =>
              simp only [Function.comp_apply, hpid, Bool.false_and, Bool.false_eq_true,
                if_false]
              simp only [hstore, Bool.false_eq_true, if_false]
        · rw [htot, billTotal_cons, priceIn_some ps sid it.id q hf]
          have hbt : billTotal (updateFirstProduct ps it.id sid
              (fun p => { p with stock_quantity := p.stock_quantity - it.quantity }))
              sid rest = billTotal ps sid rest := by
            unfold billTotal
            apply congrArg
            apply List.map_congr_left
            intro x _
            rw [hpriceInv]
          rw [hbt]
          ring
        · rw [hout, List.reverse_cons, List.map_cons, priceIn_some ps sid it.id q hf,
            hqid, List.append_assoc]
          apply congrArg
          simp only [List.singleton_append, List.cons.injEq, true_and]
          apply List.map_congr_left
          intro x _
          rw [hpriceInv]

/-- A successful loop run stages exactly one `SaleItem` per processed
line, all pointing at the sale being built (no product-id uniqueness
needed). -/
theorem processItems_ok_shape (sid : Option Nat) (saleId : Nat) :
    ∀ (items : List BillItem) (ps : List Product) (total : ℚ) (acc : List SaleItem)
      (ps' : List Product) (total' : ℚ) (out : List SaleItem),
      processItems sid saleId items ps total acc = .ok (ps', total', out) →
      ∃ news, out = acc.reverse ++ news ∧ news.length = items.length
        ∧ ∀ si ∈ news, si.sale_id = saleId := by
  intro items
  induction items with
  | nil =>
    intro ps total acc ps' total' out h
    simp only [processItems, Except.ok.injEq, Prod.mk.injEq] at h
    exact ⟨[], by simp [← h.2.2], rfl, by simp⟩
  | cons it rest ih =>
    intro ps total acc ps' total' out h
    cases hf : findProduct ps it.id sid with
    | none =>
      rw [processItems_cons_none _ _ _ _ _ _ _ hf] at h
      exact absurd h (by simp)
    | some q =>
      by_cases hlt : q.stock_quantity < it.quantity
      · rw [processItems_cons_short _ _ _ _ _ _ _ _ hf hlt] at h
        exact absurd h (by simp)
      · rw [processItems_cons_pass _ _ _ _ _ _ _ _ hf hlt] at h
        obtain ⟨news, hout, hlen, hsale⟩ := ih _ _ _ _ _ _ h
        refine ⟨{ sale_id := saleId, product_id := q.id, quantity := it.quantity,
                  price_at_sale := q.price } :: news, ?_, by simp [hlen], ?_⟩
        · rw [hout, List.reverse_cons, List.append_assoc]
          rfl
        · intro si hsi
          rcases List.mem_cons.mp hsi with hh | hh
          · rw [hh]
          · exact hsale si hh

/-- The loop never drives a stock below zero: if every stock is
non-negative going in and the loop succeeds, every stock is
non-negative coming out. -/
theorem processItems_nonneg (sid : Option Nat) (saleId : Nat) :
    ∀ (items : List BillItem) (ps : List Product) (total : ℚ) (acc : List SaleItem)
      (ps' : List Product) (total' : ℚ) (out : List SaleItem),
      (∀ p ∈ ps, 0 ≤ p.stock_quantity) →
      processItems sid saleId items ps total acc = .ok (ps', total', out) →
      ∀ p ∈ ps', 0 ≤ p.stock_quantity := by
  intro items
  induction items with
  | nil =>
    intro ps total acc ps' total' out hinv h
    simp only [processItems, Except.ok.injEq, Prod.mk.injEq] at h
    rw [← h.1]
    exact hinv
  | cons it rest ih =>
    intro ps total acc ps' total' out hinv h
    cases hf : findProduct ps it.id sid with
    | none =>
      rw [processItems_cons_none _ _ _ _ _ _ _ hf] at h
      exact absurd h (by simp)
    | some q =>
      by_cases hlt : q.stock_quantity < it.quantity
      · rw [processItems_cons_short _ _ _ _ _ _ _ _ hf hlt] at h
        exact absurd h (by simp)
      · rw [processItems_cons_pass _ _ _ _ _ _ _ _ hf hlt] at h
        refine ih _ _ _ _ _ _ ?_ h
        intro p hp
        rcases updateFirstProduct_mem_of_find ps it.id sid
          (fun r => { r with stock_quantity := r.stock_quantity - it.quantity })
          q hf p hp with hmem | heq
        · exact hinv p hmem
        · rw [heq]
          exact Int.sub_nonneg.mpr (le_of_not_lt hlt)

theorem filter_store_updateFirstProduct (ps : List Product) (pid : Nat)
    (sid : Option Nat) (B : Nat) (f : Product → Product)
    (hst : ∀ p, (f p).store_id = p.store_id) (hB : sid ≠ some B) :
    (updateFirstProduct ps pid sid f).filter (fun p => p.store_id == some B)
      = ps.filter (fun p => p.store_id == some B) := by
  induction ps with
  | nil => rfl
  | cons p rest ih =>
    by_cases hc : (p.id == pid && p.store_id == sid) = true
    · have hps : p.store_id = sid := eq_of_beq ((Bool.and_eq_true _ _).mp hc).2
      have hpredp : (p.store_id == some B) = false := by
        apply beq_eq_false_iff_ne.mpr
        rw [hps]
        exact hB
      have hpredf : ((f p).store_id == some B) = false := by
        rw [hst]
        exact hpredp
      simp [updateFirstProduct, hc, List.filter, hpredf, hpredp]
    · by_cases hm : (p.store_id == some B) = true
      · simp [updateFirstProduct, hc, List.filter, hm, ih]
      · simp [updateFirstProduct, hc, List.filter, hm, ih]

/-- A successful loop run touches no product row of any other store:
the sublist of rows belonging to store `B` is unchanged. -/
theorem processItems_filter_store (sid : Option Nat) (saleId : Nat) (B : Nat)
    (hB : sid ≠ some B) :
    ∀ (items : List BillItem) (ps : List Product) (total : ℚ) (acc : List SaleItem)
      (ps' : List Product) (total' : ℚ) (out : List SaleItem),
      processItems sid saleId items ps total acc = .ok (ps', total', out) →
      ps'.filter (fun p => p.store_id == some B)
        = ps.filter (fun p => p.store_id == some B) := by
  intro items
  induction items with
  | nil =>
    intro ps total acc ps' total' out h
    simp only [processItems, Except.ok.injEq, Prod.mk.injEq] at h
    rw [← h.1]
  | cons it rest ih =>
    intro ps total acc ps' total' out h
    cases hf : findProduct ps it.id sid with
    | none =>
      rw [processItems_cons_none _ _ _ _ _ _ _ hf] at h
      exact absurd h (by simp)
    | some q =>
      by_cases hlt : q.stock_quantity < it.quantity
      · rw [processItems_cons_short _ _ _ _ _ _ _ _ hf hlt] at h
        exact absurd h (by simp)
      · rw [processItems_cons_pass _ _ _ _ _ _ _ _ hf hlt] at h
        rw [ih _ _ _ _ _ _ h]
        exact filter_store_updateFirstProduct ps it.id sid B
          (fun p => { p with stock_quantity := p.stock_quantity - it.quantity })
          (fun p => rfl) hB

theorem findStore_updateFirstStore_self (ss : List StoreRow) (sid : Nat)
    (f : StoreRow → StoreRow) (st : StoreRow)
    (hid : ∀ s, (f s).id = s.id)
    (h : findStore ss sid = some st) :
    findStore (updateFirstStore ss sid f) sid = some (f st) := by
  induction ss with
  | nil => simp [findStore] at h
  | cons s rest ih =>
    by_cases hc : (s.id == sid) = true
    · simp only [findStore, List.find?, hc] at h
      obtain rfl : s = st := by injection h
      simp only [updateFirstStore, if_pos hc]
      simp [findStore, List.find?, hid, hc]
    · simp only [findStore, List.find?, hc] at h
      simp only [updateFirstStore, if_neg hc, findStore, List.find?, hc]
      simp only [findStore] at ih
      exact ih h

/-- If the bill asks, over all its lines naming product `pid` (at least
one), for more than that product currently has, the loop cannot succeed:
each line's check runs against the stock already decremented by the
earlier lines, so some line must fail. -/
theorem processItems_over_ne_ok (sid : Option Nat) (saleId : Nat) :
    ∀ (items : List BillItem) (ps : List Product) (pid : Nat) (p : Product)
      (total : ℚ) (acc : List SaleItem),
      findProduct ps pid sid = some p →
      (∃ it ∈ items, it.id = pid) →
      p.stock_quantity < billQty items pid →
      ∀ res, processItems sid saleId items ps total acc ≠ .ok res := by
  intro items
  induction items with
  | nil =>
    intro ps pid p total acc _ hex _ res
    obtain ⟨it, hit, _⟩ := hex
    exact absurd hit (List.not_mem_nil it)
  | cons it rest ih =>
    intro ps pid p total acc hfp hex hover res h
    cases hf : findProduct ps it.id sid with
    | none =>
      rw [processItems_cons_none _ _ _ _ _ _ _ hf] at h
      exact absurd h (by simp)
    | some q =>
      by_cases hlt : q.stock_quantity < it.quantity
      · rw [processItems_cons_short _ _ _ _ _ _ _ _ hf hlt] at h
        exact absurd h (by simp)
      · rw [processItems_cons_pass _ _ _ _ _ _ _ _ hf hlt] at h
        by_cases hidp : it.id = pid
        · rw [hidp] at hf
          obtain rfl : q = p := by
            have := hf.symm.trans hfp
            injection this
          have hbq := billQty_cons it rest pid
          rw [if_pos (beq_iff_eq.mpr hidp)] at hbq
          by_cases hrest : ∃ it' ∈ rest, it'.id = pid
          · have hfind₁ : findProduct (updateFirstProduct ps it.id sid
                (fun r => { r with stock_quantity := r.stock_quantity - it.quantity }))
                pid sid = some { q with stock_quantity := q.stock_quantity - it.quantity } := by
              rw [hidp]
              exact findProduct_updateFirstProduct_self ps pid sid
                (fun r => { r with stock_quantity := r.stock_quantity - it.quantity })
                q (fun r => rfl) (fun r => rfl) hf
            refine ih _ pid _ _ _ hfind₁ hrest ?_ res h
            simp only
            omega
          · have hz : billQty rest pid = 0 := by
              have hfil : rest.filter (fun it' => it'.id == pid) = [] := by
                rw [List.filter_eq_nil_iff]
                intro a ha
                intro hcontra
                exact hrest ⟨a, ha, eq_of_beq hcontra⟩
              simp [billQty, hfil]
            omega
        · have hfind₁ : findProduct (updateFirstProduct ps it.id sid
              (fun r => { r with stock_quantity := r.stock_quantity - it.quantity }))
              pid sid = some p := by
            rw [findProduct_updateFirstProduct_other ps pid it.id sid sid
              (fun r => { r with stock_quantity := r.stock_quantity - it.quantity })
              (fun r => rfl) (fun r => rfl) (fun hcontra => hidp hcontra.symm)]
            exact hfp
          have hrest : ∃ it' ∈ rest, it'.id = pid := by
            obtain ⟨it₀, hmem, hid₀⟩ := hex
            rcases List.mem_cons.mp hmem with hh | hh
            · exact absurd (hh ▸ hid₀) hidp
            · exact ⟨it₀, hh, hid₀⟩
          have hbq := billQty_cons it rest pid
          rw [if_neg (by simp [hidp])] at hbq
          refine ih _ pid p _ _ hfind₁ hrest (by omega) res h

/-- If some line of the bill does not resolve to a product of the
caller's store, the loop cannot succeed. -/
theorem processItems_missing_ne_ok (sid : Option Nat) (saleId : Nat) :
    ∀ (items : List BillItem) (ps : List Product) (total : ℚ) (acc : List SaleItem),
      (∃ it ∈ items, findProduct ps it.id sid = none) →
      ∀ res, processItems sid saleId items ps total acc ≠ .ok res := by
  intro items
  induction items with
  | nil =>
    intro ps total acc hex res
    obtain ⟨it, hit, _⟩ := hex
    exact absurd hit (List.not_mem_nil it)
  | cons it rest ih =>
    intro ps total acc hex res h
    obtain ⟨it₀, hmem, hmiss⟩ := hex
    cases hf : findProduct ps it.id sid with
    | none =>
      rw [processItems_cons_none _ _ _ _ _ _ _ hf] at h
      exact absurd h (by simp)
    | some q =>
      by_cases hlt : q.stock_quantity < it.quantity
      · rw [processItems_cons_short _ _ _ _ _ _ _ _ hf hlt] at h
        exact absurd h (by simp)
      · rw [processItems_cons_pass _ _ _ _ _ _ _ _ hf hlt] at h
        have hmem' : it₀ ∈ rest := by
          rcases List.mem_cons.mp hmem with hh | hh
          · rw [hh] at hmiss
            rw [hmiss] at hf
            exact absurd hf (by simp)
          · exact hh
        refine ih _ _ _ ⟨it₀, hmem', ?_⟩ res h
        exact (findProduct_updateFirstProduct_none ps it.id it₀.id sid sid
          (fun r => { r with stock_quantity := r.stock_quantity - it.quantity })
          (fun r => rfl) (fun r => rfl)).mpr hmiss

theorem list_sum_map_sub (l : List Product) (f g : Product → Int) :
    (l.map (fun x => f x - g x)).sum = (l.map f).sum - (l.map g).sum := by
  induction l with
  | nil => simp
  | cons a l ih => simp [ih]; ring

/-- Under primary-key uniqueness, a resolving line's quantity guard hits
exactly one product row, so the guarded column sums to the quantity. -/
theorem sum_single_hit (sid : Option Nat) (x : Nat) (c : Int) :
    ∀ ps : List Product, (ps.map Product.id).Nodup →
      ∀ q : Product, findProduct ps x sid = some q →
      (ps.map (fun p => if p.store_id == sid then
        (if x == p.id then c else 0) else 0)).sum = c := by
  intro ps
  induction ps with
  | nil =>
    intro _ q hq
    simp [findProduct] at hq
  | cons p rest ih =>
    intro hnd q hq
    rw [List.map_cons, List.nodup_cons] at hnd
    obtain ⟨hnotin, hnd'⟩ := hnd
    by_cases hm : (p.id == x && p.store_id == sid) = true
    · have hpx : p.id = x := eq_of_beq ((Bool.and_eq_true _ _).mp hm).1
      have hps : (p.store_id == sid) = true := ((Bool.and_eq_true _ _).mp hm).2
      have hxp : (x == p.id) = true := beq_iff_eq.mpr hpx.symm
      have hrest : (rest.map (fun r => if r.store_id == sid then
          (if x == r.id then c else 0) else 0)).sum = 0 := by
        have : rest.map (fun r => if r.store_id == sid then
            (if x == r.id then c else 0) else 0) = rest.map (fun _ => (0 : Int)) := by
          apply List.map_congr_left
          intro r hr
          have hrx : (x == r.id) = false := by
            apply beq_eq_false_iff_ne.mpr
            intro hcontra
            rw [← hpx] at hcontra
            exact hnotin (hcontra ▸ List.mem_map_of_mem Product.id hr)
          simp [hrx]
        rw [this]
        simp
      rw [List.map_cons, List.sum_cons, if_pos hps, if_pos hxp, hrest, add_zero]
    · by_cases hpx : p.id = x
      · exfalso
        simp only [findProduct, List.find?, hm] at hq
        have hkey := List.find?_some hq
        have hqx : q.id = x := eq_of_beq ((Bool.and_eq_true _ _).mp hkey).1
        have hqmem : q ∈ rest := List.mem_of_find?_eq_some hq
        apply hnotin
        rw [hpx, ← hqx]
        exact List.mem_map_of_mem Product.id hqmem
      · have hxp : (x == p.id) = false :=
          beq_eq_false_iff_ne.mpr (fun hcontra => hpx hcontra.symm)
        simp only [findProduct, List.find?, hm] at hq
        simp only [findProduct] at ih
        have hihs := ih hnd' q hq
        simp only [List.map_cons, List.sum_cons, hxp, Bool.false_eq_true, if_false,
          ite_self, zero_add]
        exact hihs

/-- Under primary-key uniqueness, if every line resolves then summing the
per-product cumulative requested quantities over the store's rows equals
the total requested quantity of the bill. -/
theorem sum_guarded_billQty (sid : Option Nat) :
    ∀ (items : List BillItem) (ps : List Product),
      (ps.map Product.id).Nodup →
      (∀ it ∈ items, findProduct ps it.id sid ≠ none) →
      (ps.map (fun p => if p.store_id == sid then billQty items p.id else 0)).sum
        = (items.map (fun it => it.quantity)).sum := by
  intro items
  induction items with
  | nil =>
    intro ps _ _
    have : ps.map (fun p => if p.store_id == sid then billQty [] p.id else 0)
        = ps.map (fun _ => (0 : Int)) := by
      apply List.map_congr_left
      intro p _
      simp [billQty_nil]
    rw [this]
    simp
  | cons it rest ih =>
    intro ps hnd hres
    obtain ⟨q, hq⟩ : ∃ q, findProduct ps it.id sid = some q := by
      cases hfq : findProduct ps it.id sid with
      | none => exact absurd hfq (hres it (List.mem_cons_self _ _))
      | some q => exact ⟨q, rfl⟩
    have hsplit : ps.map (fun p => if p.store_id == sid then billQty (it :: rest) p.id else 0)
        = ps.map (fun p => (if p.store_id == sid then (if it.id == p.id then it.quantity else 0) else 0)
            + (if p.store_id == sid then billQty rest p.id else 0)) := by
      apply List.map_congr_left
      intro p _
      cases hcs : (p.store_id == sid) with
      | true => simp [billQty_cons]
      | false => simp [hcs]
    rw [hsplit, list_sum_map_add, List.map_cons, List.sum_cons,
      sum_single_hit sid it.id it.quantity ps hnd q hq,
      ih ps hnd (fun it' hmem => hres it' (List.mem_cons_of_mem _ hmem))]

theorem process_bill_not_store (db : DB) (u : User) (now : Nat)
    (bill : List BillItem) (h : u.role ≠ "store") :
    process_bill db u now bill = (db, .forbidden) := by
  simp [process_bill, h]

theorem process_bill_error_eq (db : DB) (u : User) (now : Nat) (it : BillItem)
    (rest : List BillItem) (msg : String) (h_role : u.role = "store")
    (hpi : processItems u.store_id db.next_sale_id (it :: rest) db.products 0 []
      = .error msg) :
    process_bill db u now (it :: rest) = (db, .failure msg 400) := by
  simp [process_bill, h_role, hpi]

theorem process_bill_ok_eq (db : DB) (u : User) (now : Nat) (it : BillItem)
    (rest : List BillItem) (ps : List Product) (total : ℚ) (sitems : List SaleItem)
    (h_role : u.role = "store")
    (hpi : processItems u.store_id db.next_sale_id (it :: rest) db.products 0 []
      = .ok (ps, total, sitems)) :
    process_bill db u now (it :: rest)
      = ({ db with
            products := ps,
            sales := db.sales ++
              [{ id := db.next_sale_id, total_amount := round2 total,
                 sale_date := now, store_id := u.store_id }],
            sale_items := db.sale_items ++ sitems,
            next_sale_id := db.next_sale_id + 1 },
         .success db.next_sale_id) := by
  simp [process_bill, h_role, hpi]

/-! ### The claims -/

/-- C1: the bill-processing operation is all-or-nothing.  For every bill
request, either the handler commits a single new state carrying the
updated product table, the new `Sale` row and one `SaleItem` row per
line all together with a success response, or the database is left
exactly as it was and no success is reported (any per-line precondition
failure rolls the whole transaction back). -/
theorem process_bill_all_or_nothing (db : DB) (u : User) (now : Nat)
    (bill : List BillItem) :
    (∃ ps' total sitems,
        process_bill db u now bill
          = ({ db with
                products := ps',
                sales := db.sales ++
                  [{ id := db.next_sale_id, total_amount := round2 total,
                     sale_date := now, store_id := u.store_id }],
                sale_items := db.sale_items ++ sitems,
                next_sale_id := db.next_sale_id + 1 },
             .success db.next_sale_id)
        ∧ sitems.length = bill.length
        ∧ ∀ si ∈ sitems, si.sale_id = db.next_sale_id)
    ∨ ((process_bill db u now bill).1 = db
        ∧ ∀ sid, (process_bill db u now bill).2 ≠ BillResult.success sid) := by
  by_cases hrole : u.role = "store"
  · cases bill with
    | nil =>
      right
      constructor
      · simp [process_bill, hrole]
      · intro sid
        simp [process_bill, hrole]
    | cons it rest =>
      cases hpi : processItems u.store_id db.next_sale_id (it :: rest) db.products 0 [] with
      | error msg =>
        right
        rw [process_bill_error_eq db u now it rest msg hrole hpi]
        exact ⟨rfl, by intro sid; simp⟩
      | ok val =>
        obtain ⟨ps, total, sitems⟩ := val
        left
        refine ⟨ps, total, sitems, process_bill_ok_eq db u now it rest ps total sitems hrole hpi, ?_, ?_⟩
        · obtain ⟨news, hout, hlen, _⟩ :=
            processItems_ok_shape u.store_id db.next_sale_id (it :: rest)
              db.products 0 [] ps total sitems hpi
          simpa [hout] using hlen
        · obtain ⟨news, hout, _, hsale⟩ :=
            processItems_ok_shape u.store_id db.next_sale_id (it :: rest)
              db.products 0 [] ps total sitems hpi
          intro si hsi
          apply hsale
          simpa [hout] using hsi
  · right
    rw [process_bill_not_store db u now bill hrole]
    exact ⟨rfl, by intro sid; simp⟩

/-- C2: on a successful bill, every line resolves in the caller's store,
each product row of that store loses exactly the cumulative quantity the
bill requests for it (other rows are untouched), the total stock
decrease equals the total requested quantity, one `SaleItem` per line is
appended in order recording the quantity and the price at sale time, and
the new `Sale` carries `round2` of Σ price·quantity; the reported
`sale_id` is the new row's id. -/
theorem process_bill_success_spec (db : DB) (u : User) (now : Nat)
    (bill : List BillItem) (db' : DB) (sid : Nat)
    (h_uniq : (db.products.map Product.id).Nodup)
    (h : process_bill db u now bill = (db', BillResult.success sid)) :
    sid = db.next_sale_id
    ∧ (∀ it ∈ bill, findProduct db.products it.id u.store_id ≠ none)
    ∧ db'.products = db.products.map (fun p => if p.store_id == u.store_id then
        { p with stock_quantity := p.stock_quantity - billQty bill p.id } else p)
    ∧ (db.products.map Product.stock_quantity).sum
        - (db'.products.map Product.stock_quantity).sum
        = (bill.map (fun it => it.quantity)).sum
    ∧ db'.sale_items = db.sale_items ++ bill.map (fun it =>
        { sale_id := db.next_sale_id, product_id := it.id, quantity := it.quantity,
          price_at_sale := priceIn db.products u.store_id it.id })
    ∧ db'.sales = db.sales ++
        [{ id := db.next_sale_id,
           total_amount := round2 (billTotal db.products u.store_id bill),
           sale_date := now, store_id := u.store_id }] := by
  by_cases hrole : u.role = "store"
  case neg =>
    rw [process_bill_not_store db u now bill hrole] at h
    exact absurd (congrArg Prod.snd h) (by simp)
  case pos =>
  cases bill with
  | nil =>
    exfalso
    have := congrArg Prod.snd h
    simp [process_bill, hrole] at this
  | cons it rest =>
    cases hpi : processItems u.store_id db.next_sale_id (it :: rest) db.products 0 [] with
    | error msg =>
      exfalso
      rw [process_bill_error_eq db u now it rest msg hrole hpi] at h
      exact absurd (congrArg Prod.snd h) (by simp)
    | ok val =>
      obtain ⟨ps, total, sitems⟩ := val
      rw [process_bill_ok_eq db u now it rest ps total sitems hrole hpi] at h
      have hdb' : db' = { db with
          products := ps,
          sales := db.sales ++
            [{ id := db.next_sale_id, total_amount := round2 total,
               sale_date := now, store_id := u.store_id }],
          sale_items := db.sale_items ++ sitems,
          next_sale_id := db.next_sale_id + 1 } := (congrArg Prod.fst h).symm
      have hsid : sid = db.next_sale_id := by
        have := congrArg Prod.snd h
        simp only at this
        injection this.symm
      obtain ⟨hres, hps, htot, hout⟩ :=
        processItems_ok_spec u.store_id db.next_sale_id (it :: rest)
          db.products 0 [] ps total sitems h_uniq hpi
      have hmapstock : db'.products.map Product.stock_quantity
          = db.products.map (fun p => p.stock_quantity
              - (if p.store_id == u.store_id then billQty (it :: rest) p.id else 0)) := by
        rw [hdb']
        simp only
        rw [hps, List.map_map]
        apply List.map_congr_left
        intro p _
        cases hcs : (p.store_id == u.store_id) with
        | true =>
          have heq : p.store_id = u.store_id := eq_of_beq hcs
          simp [Function.comp_apply, hcs, heq]
        | false =>
          have hne : p.store_id ≠ u.store_id := beq_eq_false_iff_ne.mp hcs
          simp [Function.comp_apply, hcs, hne]
      refine ⟨hsid, hres, ?_, ?_, ?_, ?_⟩
      · rw [hdb']
        exact hps
      · rw [hmapstock, list_sum_map_sub,
          sum_guarded_billQty u.store_id (it :: rest) db.products h_uniq hres]
        omega
      · rw [hdb']
        simp only
        rw [hout]
        simp
      · rw [hdb']
        simp only
        rw [htot, zero_add]

theorem findProduct_mem (ps : List Product) (pid : Nat) (sid : Option Nat)
    (q : Product) (h : findProduct ps pid sid = some q) : q ∈ ps := by
  simp only [findProduct] at h
  exact List.mem_of_find?_eq_some h

/-- C3 (amended): a bill containing a line whose `product_id` does not
resolve to a product of the caller's store always fails with status 400
and leaves the database unchanged, and when that line is the first one
the error message is exactly the insufficient-stock message with the
missing id spliced in (`Not enough stock for ID <id>`) — the handler
does not produce a distinct not-found error. -/
theorem bill_missing_product_400 (db : DB) (u : User) (now : Nat)
    (bill : List BillItem) (it : BillItem)
    (h_role : u.role = "store")
    (h_mem : it ∈ bill)
    (h_miss : findProduct db.products it.id u.store_id = none) :
    ((process_bill db u now bill).1 = db
      ∧ ∃ msg, (process_bill db u now bill).2 = BillResult.failure msg 400)
    ∧ (bill.head? = some it →
        process_bill db u now bill
          = (db, BillResult.failure ("Not enough stock for ID " ++ toString it.id) 400)) := by
  cases bill with
  | nil => exact absurd h_mem (List.not_mem_nil it)
  | cons hd tl =>
    cases hpi : processItems u.store_id db.next_sale_id (hd :: tl) db.products 0 [] with
    | error msg =>
      have heq := process_bill_error_eq db u now hd tl msg h_role hpi
      refine ⟨⟨by rw [heq], msg, by rw [heq]⟩, ?_⟩
      intro hhead
      have hhd : hd = it := by
        simp only [List.head?] at hhead
        injection hhead
      rw [hhd] at hpi
      rw [processItems_cons_none u.store_id db.next_sale_id it tl db.products 0 []
        h_miss] at hpi
      have hmsg : msg = "Not enough stock for ID " ++ toString it.id := by
        injection hpi.symm
      rw [heq, hmsg]
    | ok val =>
      exact absurd hpi (processItems_missing_ne_ok u.store_id db.next_sale_id
        (hd :: tl) db.products 0 [] ⟨it, h_mem, h_miss⟩ val)

/-- C4 (amended): `stock_quantity ≥ 0` is an invariant preserved by the
stock-update route and by bill processing, given it holds beforehand
(product creation, in contrast, performs no check — see the
counterexample). -/
theorem stock_nonneg_preserved (db : DB) (u : User)
    (hinv : ∀ p ∈ db.products, 0 ≤ p.stock_quantity) :
    (∀ pid add, ∀ p ∈ (update_stock db u pid add).1.products, 0 ≤ p.stock_quantity)
    ∧ (∀ now bill, ∀ p ∈ (process_bill db u now bill).1.products, 0 ≤ p.stock_quantity) := by
  constructor
  · intro pid add p hp
    by_cases hrole : u.role = "store"
    · cases hf : findProduct db.products pid u.store_id with
      | none =>
        have heq : (update_stock db u pid add).1 = db := by
          simp [update_stock, hrole, hf]
        rw [heq] at hp
        exact hinv p hp
      | some q =>
        by_cases hadd : add > 0
        · have heq : (update_stock db u pid add).1 = { db with products := updateFirstProduct db.products pid u.store_id (fun r => { r with stock_quantity := r.stock_quantity + add }) } := by
            simp [update_stock, hrole, hf, hadd]
          rw [heq] at hp
          simp only at hp
          rcases updateFirstProduct_mem_of_find db.products pid u.store_id
            (fun r => { r with stock_quantity := r.stock_quantity + add })
            q hf p hp with hmem | hnew
          · exact hinv p hmem
          · rw [hnew]
            have hq0 : 0 ≤ q.stock_quantity := hinv q (findProduct_mem _ _ _ _ hf)
            simp only
            omega
        · have heq : (update_stock db u pid add).1 = db := by
            simp [update_stock, hrole, hf, hadd]
          rw [heq] at hp
          exact hinv p hp
    · have heq : (update_stock db u pid add).1 = db := by
        simp [update_stock, hrole]
      rw [heq] at hp
      exact hinv p hp
  · intro now bill p hp
    by_cases hrole : u.role = "store"
    · cases bill with
      | nil =>
        have heq : (process_bill db u now []).1 = db := by
          simp [process_bill, hrole]
        rw [heq] at hp
        exact hinv p hp
      | cons hd tl =>
        cases hpi : processItems u.store_id db.next_sale_id (hd :: tl) db.products 0 [] with
        | error msg =>
          rw [process_bill_error_eq db u now hd tl msg hrole hpi] at hp
          exact hinv p hp
        | ok val =>
          obtain ⟨ps, total, sitems⟩ := val
          rw [process_bill_ok_eq db u now hd tl ps total sitems hrole hpi] at hp
          simp only at hp
          exact processItems_nonneg u.store_id db.next_sale_id (hd :: tl)
            db.products 0 [] ps total sitems hinv hpi p hp
    · rw [process_bill_not_store db u now bill hrole] at hp
      exact hinv p hp

/-- C5: cross-store isolation.  A user scoped to store `A ≠ B` never
reads or writes a row of store `B`: product listing and sales listing
return no `B` rows, and stock update and bill processing leave the `B`
rows of the product and sales tables exactly as they were. -/
theorem cross_store_isolation (db : DB) (u : User) (A B : Nat)
    (hA : u.store_id = some A) (hAB : A ≠ B) :
    (∀ ps, get_products db u = some ps → ∀ p ∈ ps, p.store_id ≠ some B)
    ∧ (∀ ss, sales db u = some ss → ∀ s ∈ ss, s.store_id ≠ some B)
    ∧ (∀ pid add, (update_stock db u pid add).1.products.filter
        (fun p => p.store_id == some B)
        = db.products.filter (fun p => p.store_id == some B))
    ∧ (∀ now bill,
        (process_bill db u now bill).1.products.filter (fun p => p.store_id == some B)
          = db.products.filter (fun p => p.store_id == some B)
        ∧ (process_bill db u now bill).1.sales.filter (fun s => s.store_id == some B)
          = db.sales.filter (fun s => s.store_id == some B)) := by
  have hBne : u.store_id ≠ some B := by
    rw [hA]
    intro hcontra
    exact hAB (Option.some_inj.mp hcontra)
  refine ⟨?_, ?_, ?_, ?_⟩
  · intro ps hps p hp
    by_cases hrole : u.role ∈ ["store", "admin"]
    · simp only [get_products, if_pos hrole, Option.some_inj] at hps
      rw [← hps] at hp
      have hpred := (List.mem_filter.mp hp).2
      have hst : p.store_id = u.store_id :=
        eq_of_beq ((Bool.and_eq_true _ _).mp hpred).1
      rw [hst]
      exact hBne
    · simp only [get_products, if_neg hrole] at hps
      exact absurd hps (by simp)
  · intro ss hss s hs
    by_cases hrole : u.role = "admin"
    · have hrole' : ¬ u.role ≠ "admin" := by simp [hrole]
      simp only [sales, if_neg hrole', Option.some_inj] at hss
      rw [← hss] at hs
      have hpred := (List.mem_filter.mp hs).2
      rw [eq_of_beq hpred]
      exact hBne
    · simp [sales, hrole] at hss
  · intro pid add
    by_cases hrole : u.role = "store"
    · cases hf : findProduct db.products pid u.store_id with
      | none =>
        have heq : (update_stock db u pid add).1 = db := by
          simp [update_stock, hrole, hf]
        rw [heq]
      | some q =>
        by_cases hadd : add > 0
        · have heq : (update_stock db u pid add).1 = { db with products := updateFirstProduct db.products pid u.store_id (fun r => { r with stock_quantity := r.stock_quantity + add }) } := by
            simp [update_stock, hrole, hf, hadd]
          rw [heq]
          exact filter_store_updateFirstProduct db.products pid u.store_id B
            (fun r => { r with stock_quantity := r.stock_quantity + add })
            (fun r => rfl) hBne
        · have heq : (update_stock db u pid add).1 = db := by
            simp [update_stock, hrole, hf, hadd]
          rw [heq]
    · have heq : (update_stock db u pid add).1 = db := by
        simp [update_stock, hrole]
      rw [heq]
  · intro now bill
    by_cases hrole : u.role = "store"
    · cases bill with
      | nil =>
        have heq : (process_bill db u now []).1 = db := by
          simp [process_bill, hrole]
        rw [heq]
        exact ⟨rfl, rfl⟩
      | cons hd tl =>
        cases hpi : processItems u.store_id db.next_sale_id (hd :: tl) db.products 0 [] with
        | error msg =>
          rw [process_bill_error_eq db u now hd tl msg hrole hpi]
          exact ⟨rfl, rfl⟩
        | ok val =>
          obtain ⟨ps, total, sitems⟩ := val
          rw [process_bill_ok_eq db u now hd tl ps total sitems hrole hpi]
          constructor
          · simp only
            exact processItems_filter_store u.store_id db.next_sale_id B hBne
              (hd :: tl) db.products 0 [] ps total sitems hpi
          · simp only
            rw [List.filter_append]
            have hone : ∀ x : Sale, x.store_id = u.store_id →
                ([x].filter (fun s => s.store_id == some B)) = [] := by
              intro x hx
              have hb : (x.store_id == some B) = false := by
                apply beq_eq_false_iff_ne.mpr
                rw [hx]
                exact hBne
              simp [List.filter, hb]
            rw [hone _ rfl, List.append_nil]
    · rw [process_bill_not_store db u now bill hrole]
      exact ⟨rfl, rfl⟩

/-- C6: lines are processed in input order against the running stock, so
a bill whose lines cumulatively request more of one product than its
initial stock can never succeed. -/
theorem process_bill_cumulative_insufficient (db : DB) (u : User) (now : Nat)
    (bill : List BillItem) (pid : Nat) (p : Product)
    (h_find : findProduct db.products pid u.store_id = some p)
    (h_named : ∃ it ∈ bill, it.id = pid)
    (h_over : p.stock_quantity < billQty bill pid) :
    ¬ ∃ sid, (process_bill db u now bill).2 = BillResult.success sid := by
  rintro ⟨sid, hsucc⟩
  by_cases hrole : u.role = "store"
  · cases bill with
    | nil =>
      obtain ⟨it, hit, _⟩ := h_named
      exact absurd hit (List.not_mem_nil it)
    | cons hd tl =>
      cases hpi : processItems u.store_id db.next_sale_id (hd :: tl) db.products 0 [] with
      | error msg =>
        rw [process_bill_error_eq db u now hd tl msg hrole hpi] at hsucc
        simp at hsucc
      | ok val =>
        exact processItems_over_ne_ok u.store_id db.next_sale_id (hd :: tl)
          db.products pid p 0 [] h_find h_named h_over val hpi
  · rw [process_bill_not_store db u now bill hrole] at hsucc
    simp at hsucc

/-- C7: a bill with an empty item list is rejected up front with the
`Empty bill` 400 response and the database is left untouched. -/
theorem process_bill_empty_rejected (db : DB) (u : User) (now : Nat)
    (h_role : u.role = "store") :
    process_bill db u now [] = (db, BillResult.failure ("Empty bill") 400) := by
  simp [process_bill, h_role]

/-- C8: a license-update request with a date string that parses as
`%Y-%m-%d` sets the store's `license_validity` to that date and
redirects; a malformed string changes nothing and still redirects (the
`ValueError` is swallowed, no error reaches the caller). -/
theorem update_license_spec (db : DB) (u : User) (store_id : Nat) (s : String)
    (st : StoreRow)
    (h_role : u.role = "superadmin")
    (h_found : findStore db.stores store_id = some st) :
    (∀ d, parseDate s = some d →
      update_license db u store_id (some s)
        = ({ db with stores := updateFirstStore db.stores store_id (fun st0 => { st0 with license_validity := d }) }, PageResult.redirect)
      ∧ findStore (updateFirstStore db.stores store_id
          (fun st0 => { st0 with license_validity := d })) store_id
          = some { st with license_validity := d })
    ∧ (parseDate s = none →
        update_license db u store_id (some s) = (db, PageResult.redirect)) := by
  constructor
  · intro d hd
    have hs : s ≠ "" := by
      intro hcontra
      rw [hcontra] at hd
      exact absurd hd (by simp [parseDate])
    have hsb : (s == "") = false := beq_eq_false_iff_ne.mpr hs
    constructor
    · simp [update_license, h_role, h_found, hsb, hd]
    · exact findStore_updateFirstStore_self db.stores store_id
        (fun st0 => { st0 with license_validity := d }) st (fun st0 => rfl) h_found
  · intro hd
    by_cases hs : s = ""
    · rw [hs]
      simp [update_license, h_role, h_found]
    · have hsb : (s == "") = false := beq_eq_false_iff_ne.mpr hs
      simp [update_license, h_role, h_found, hsb, hd]

/-- C9: a stock-increment request by a store user on an own-store
product adds exactly `add` to that product's stock when `add` is
positive, and silently changes nothing (still redirecting) when `add`
is zero or negative. -/
theorem update_stock_spec (db : DB) (u : User) (pid : Nat) (add : Int) (p : Product)
    (h_role : u.role = "store")
    (h_find : findProduct db.products pid u.store_id = some p) :
    (0 < add →
      update_stock db u pid add
        = ({ db with products := updateFirstProduct db.products pid u.store_id (fun q => { q with stock_quantity := q.stock_quantity + add }) },
           PageResult.redirect)
      ∧ findProduct (updateFirstProduct db.products pid u.store_id
          (fun q => { q with stock_quantity := q.stock_quantity + add })) pid u.store_id
          = some { p with stock_quantity := p.stock_quantity + add })
    ∧ (add ≤ 0 → update_stock db u pid add = (db, PageResult.redirect)) := by
  constructor
  · intro hadd
    constructor
    · simp [update_stock, h_role, h_find, hadd]
    · exact findProduct_updateFirstProduct_self db.products pid u.store_id
        (fun q => { q with stock_quantity := q.stock_quantity + add }) p
        (fun q => rfl) (fun q => rfl) h_find
  · intro hadd
    have hna : ¬ add > 0 := not_lt.mpr hadd
    simp [update_stock, h_role, h_find, hna]

/-- C10: bill processing has no positivity check on line quantities.
Any single-line bill with `quantity ≤ stock` — including zero and
negative quantities — succeeds: the stock becomes `stock − q` (an
increase for negative `q`), the recorded `SaleItem` carries the signed
quantity, and the sale total is `round2 (price · q)` (negative for
negative `q`). -/
theorem process_bill_no_positivity_check (db : DB) (u : User) (now : Nat)
    (pid : Nat) (q : Int) (p : Product)
    (h_role : u.role = "store")
    (h_find : findProduct db.products pid u.store_id = some p)
    (h_q : q ≤ p.stock_quantity) :
    process_bill db u now [{ id := pid, quantity := q }]
      = ({ db with
            products := updateFirstProduct db.products pid u.store_id (fun r => { r with stock_quantity := r.stock_quantity - q }),
            sales := db.sales ++
              [{ id := db.next_sale_id, total_amount := round2 (p.price * q),
                 sale_date := now, store_id := u.store_id }],
            sale_items := db.sale_items ++
              [{ sale_id := db.next_sale_id, product_id := p.id, quantity := q,
                 price_at_sale := p.price }],
            next_sale_id := db.next_sale_id + 1 },
         BillResult.success db.next_sale_id)
    ∧ findProduct (updateFirstProduct db.products pid u.store_id
        (fun r => { r with stock_quantity := r.stock_quantity - q })) pid u.store_id
        = some { p with stock_quantity := p.stock_quantity - q } := by
  have hlt : ¬ p.stock_quantity < q := not_lt.mpr h_q
  have hpi : processItems u.store_id db.next_sale_id [{ id := pid, quantity := q }]
      db.products 0 []
      = .ok (updateFirstProduct db.products pid u.store_id (fun r => { r with stock_quantity := r.stock_quantity - q }),
             0 + p.price * q,
             [{ sale_id := db.next_sale_id, product_id := p.id, quantity := q,
                price_at_sale := p.price }]) := by
    rw [processItems_cons_pass u.store_id db.next_sale_id _ [] db.products 0 [] p
      h_find hlt]
    rfl
  constructor
  · have heq := process_bill_ok_eq db u now _ [] _ _ _ h_role hpi
    rw [heq, zero_add]
  · exact findProduct_updateFirstProduct_self db.products pid u.store_id
      (fun r => { r with stock_quantity := r.stock_quantity - q }) p
      (fun r => rfl) (fun r => rfl) h_find

/-! ### Concrete sample data for counterexamples and witnesses -/

def store1 : StoreRow := { id := 1, name := "S1", location := "L1", license_validity := { year := 2024, month := 1, day := 1 } }

def store2 : StoreRow := { id := 2, name := "S2", location := "L2", license_validity := { year := 2024, month := 1, day := 1 } }

def storeClerk : User := { id := 10, username := "clerk", role := "store", store_id := some 1 }

def superUser : User := { id := 1, username := "root", role := "superadmin", store_id := none }

def beer : Product := { id := 1, barcode := some ("B1"), name := "Beer", brand := "Acme", category := "Beer", size_ml := 500, price := 10, stock_quantity := 5, store_id := some 1 }

def whisky : Product := { id := 2, barcode := none, name := "Whisky", brand := "Acme", category := "Whisky", size_ml := 750, price := 50, stock_quantity := 4, store_id := some 2 }

def dbMain : DB := { stores := [store1, store2], products := [beer, whisky], sales := [{ id := 1, total_amount := 30, sale_date := 0, store_id := some 2 }], sale_items := [], next_product_id := 3, next_sale_id := 2 }

def dbEmpty : DB := { stores := [], products := [], sales := [], sale_items := [], next_product_id := 1, next_sale_id := 1 }

/-- A product whose display name happens to read like a missing-id tag. -/
def prodMasked : Product := { id := 7, barcode := none, name := "ID 2", brand := "X", category := "X", size_ml := 750, price := 10, stock_quantity := 0, store_id := some 1 }

def dbMasked : DB := { dbEmpty with products := [prodMasked] }

/-- C3 (counterexample): a line naming a product id that does not exist
and a line naming an existing product with too little stock can produce
byte-for-byte identical responses (same status 400, same message), so
the missing-product case is not a distinct error: here the nonexistent
id 2 and the under-stocked product named `ID 2` both yield
`Not enough stock for ID 2`. -/
theorem bill_notfound_same_as_insufficient :
    process_bill dbEmpty storeClerk 0 [{ id := 2, quantity := 1 }]
      = (dbEmpty, BillResult.failure ("Not enough stock for ID 2") 400)
    ∧ process_bill dbMasked storeClerk 0 [{ id := 7, quantity := 1 }]
      = (dbMasked, BillResult.failure ("Not enough stock for ID 2") 400) :=
  ⟨rfl, rfl⟩

/-- C4 (counterexample): the product-creation form performs no sign
check, so a store user can create a product whose `stock_quantity` is
negative — the claimed always-nonnegative invariant fails right after
this operation. -/
theorem create_product_negative_stock :
    ((dashboard_post dbEmpty storeClerk ("Rum") ("Acme") ("Rum") 750 10 ("R1") (-5)).1.products.map Product.stock_quantity) = [-5]
    ∧ ((-5 : Int) < 0) :=
  ⟨rfl, by decide⟩

/-! ### Witnesses -/

def billW2 : List BillItem := [{ id := 1, quantity := 3 }]

def dbW2 : DB := (process_bill dbMain storeClerk 7 billW2).1

theorem process_bill_success_spec_witness :
    ((dbMain.products.map Product.id).Nodup
      ∧ process_bill dbMain storeClerk 7 billW2 = (dbW2, BillResult.success 2))
    ∧ (2 = dbMain.next_sale_id
      ∧ (∀ it ∈ billW2, findProduct dbMain.products it.id storeClerk.store_id ≠ none)
      ∧ dbW2.products = dbMain.products.map (fun p => if p.store_id == storeClerk.store_id then { p with stock_quantity := p.stock_quantity - billQty billW2 p.id } else p)
      ∧ (dbMain.products.map Product.stock_quantity).sum
          - (dbW2.products.map Product.stock_quantity).sum
          = (billW2.map (fun it => it.quantity)).sum
      ∧ dbW2.sale_items = dbMain.sale_items ++ billW2.map (fun it => { sale_id := dbMain.next_sale_id, product_id := it.id, quantity := it.quantity, price_at_sale := priceIn dbMain.products storeClerk.store_id it.id })
      ∧ dbW2.sales = dbMain.sales ++ [{ id := dbMain.next_sale_id, total_amount := round2 (billTotal dbMain.products storeClerk.store_id billW2), sale_date := 7, store_id := storeClerk.store_id }]) :=
  ⟨⟨by decide, rfl⟩,
    process_bill_success_spec dbMain storeClerk 7 billW2 dbW2 2 (by decide) rfl⟩

def itMiss : BillItem := { id := 9, quantity := 1 }

def billMiss : List BillItem := [itMiss]

theorem bill_missing_product_400_witness :
    (storeClerk.role = "store" ∧ itMiss ∈ billMiss
      ∧ findProduct dbMain.products itMiss.id storeClerk.store_id = none)
    ∧ (((process_bill dbMain storeClerk 0 billMiss).1 = dbMain
        ∧ ∃ msg, (process_bill dbMain storeClerk 0 billMiss).2 = BillResult.failure msg 400)
      ∧ (billMiss.head? = some itMiss →
          process_bill dbMain storeClerk 0 billMiss
            = (dbMain, BillResult.failure ("Not enough stock for ID " ++ toString itMiss.id) 400))) :=
  ⟨⟨rfl, by decide, rfl⟩,
    bill_missing_product_400 dbMain storeClerk 0 billMiss itMiss rfl (by decide) rfl⟩

theorem stock_nonneg_preserved_witness :
    (∀ p ∈ dbMain.products, 0 ≤ p.stock_quantity)
    ∧ ((∀ pid add, ∀ p ∈ (update_stock dbMain storeClerk pid add).1.products, 0 ≤ p.stock_quantity)
      ∧ (∀ now bill, ∀ p ∈ (process_bill dbMain storeClerk now bill).1.products, 0 ≤ p.stock_quantity)) :=
  ⟨by decide, stock_nonneg_preserved dbMain storeClerk (by decide)⟩

theorem cross_store_isolation_witness :
    (storeClerk.store_id = some 1 ∧ (1 : Nat) ≠ 2)
    ∧ ((∀ ps, get_products dbMain storeClerk = some ps → ∀ p ∈ ps, p.store_id ≠ some 2)
      ∧ (∀ ss, sales dbMain storeClerk = some ss → ∀ s ∈ ss, s.store_id ≠ some 2)
      ∧ (∀ pid add, (update_stock dbMain storeClerk pid add).1.products.filter (fun p => p.store_id == some 2) = dbMain.products.filter (fun p => p.store_id == some 2))
      ∧ (∀ now bill,
          (process_bill dbMain storeClerk now bill).1.products.filter (fun p => p.store_id == some 2) = dbMain.products.filter (fun p => p.store_id == some 2)
          ∧ (process_bill dbMain storeClerk now bill).1.sales.filter (fun s => s.store_id == some 2) = dbMain.sales.filter (fun s => s.store_id == some 2))) :=
  ⟨⟨rfl, by decide⟩, cross_store_isolation dbMain storeClerk 1 2 rfl (by decide)⟩

def billDouble : List BillItem := [{ id := 1, quantity := 3 }, { id := 1, quantity := 3 }]

theorem process_bill_cumulative_insufficient_witness :
    (findProduct dbMain.products 1 storeClerk.store_id = some beer
      ∧ (∃ it ∈ billDouble, it.id = 1)
      ∧ beer.stock_quantity < billQty billDouble 1)
    ∧ ¬ ∃ sid, (process_bill dbMain storeClerk 0 billDouble).2 = BillResult.success sid :=
  ⟨⟨rfl, by decide, by decide⟩,
    process_bill_cumulative_insufficient dbMain storeClerk 0 billDouble 1 beer
      rfl (by decide) (by decide)⟩

theorem process_bill_empty_rejected_witness :
    storeClerk.role = "store"
    ∧ process_bill dbMain storeClerk 0 []
        = (dbMain, BillResult.failure ("Empty bill") 400) :=
  ⟨rfl, process_bill_empty_rejected dbMain storeClerk 0 rfl⟩

theorem update_license_spec_witness :
    (superUser.role = "superadmin" ∧ findStore dbMain.stores 1 = some store1)
    ∧ ((∀ d, parseDate ("2026-02-28") = some d →
        update_license dbMain superUser 1 (some ("2026-02-28"))
          = ({ dbMain with stores := updateFirstStore dbMain.stores 1 (fun st0 => { st0 with license_validity := d }) }, PageResult.redirect)
        ∧ findStore (updateFirstStore dbMain.stores 1 (fun st0 => { st0 with license_validity := d })) 1 = some { store1 with license_validity := d })
      ∧ (parseDate ("2026-02-28") = none →
          update_license dbMain superUser 1 (some ("2026-02-28")) = (dbMain, PageResult.redirect))) :=
  ⟨⟨rfl, rfl⟩, update_license_spec dbMain superUser 1 ("2026-02-28") store1 rfl rfl⟩

theorem update_stock_spec_witness :
    (storeClerk.role = "store" ∧ findProduct dbMain.products 1 storeClerk.store_id = some beer)
    ∧ ((0 < (7 : Int) →
        update_stock dbMain storeClerk 1 7
          = ({ dbMain with products := updateFirstProduct dbMain.products 1 storeClerk.store_id (fun q => { q with stock_quantity := q.stock_quantity + 7 }) }, PageResult.redirect)
        ∧ findProduct (updateFirstProduct dbMain.products 1 storeClerk.store_id (fun q => { q with stock_quantity := q.stock_quantity + 7 })) 1 storeClerk.store_id = some { beer with stock_quantity := beer.stock_quantity + 7 })
      ∧ ((7 : Int) ≤ 0 → update_stock dbMain storeClerk 1 7 = (dbMain, PageResult.redirect))) :=
  ⟨⟨rfl, rfl⟩, update_stock_spec dbMain storeClerk 1 7 beer rfl rfl⟩

theorem process_bill_no_positivity_check_witness :
    (storeClerk.role = "store"
      ∧ findProduct dbMain.products 1 storeClerk.store_id = some beer
      ∧ (-3 : Int) ≤ beer.stock_quantity)
    ∧ (process_bill dbMain storeClerk 0 [{ id := 1, quantity := -3 }]
        = ({ dbMain with
              products := updateFirstProduct dbMain.products 1 storeClerk.store_id (fun r => { r with stock_quantity := r.stock_quantity - (-3) }),
              sales := dbMain.sales ++ [{ id := dbMain.next_sale_id, total_amount := round2 (beer.price * (((-3) : Int) : ℚ)), sale_date := 0, store_id := storeClerk.store_id }],
              sale_items := dbMain.sale_items ++ [{ sale_id := dbMain.next_sale_id, product_id := beer.id, quantity := -3, price_at_sale := beer.price }],
              next_sale_id := dbMain.next_sale_id + 1 },
           BillResult.success dbMain.next_sale_id)
      ∧ findProduct (updateFirstProduct dbMain.products 1 storeClerk.store_id (fun r => { r with stock_quantity := r.stock_quantity - (-3) })) 1 storeClerk.store_id = some { beer with stock_quantity := beer.stock_quantity - (-3) }) :=
  ⟨⟨rfl, rfl, by decide⟩,
    process_bill_no_positivity_check dbMain storeClerk 0 1 (-3) beer rfl rfl (by decide)⟩

end Madira
